import Mathlib

/-!
Verification of `datautils.py` (linear PSD loading/rendering utilities).

We shallowly embed the data model and the operations of the source file:
pixels are channel vectors over `ℚ` (channel 3 is alpha), images are either
pixel lists (flattened spatial grid) or functions from coordinates, and the
Python float arithmetic is idealised as exact rational arithmetic.  The
batch dimension of `LinearComposite` acts elementwise, so we model a single
batch entry; randomness (`random.randint`) is modelled by an explicit oracle
stream of naturals.
-/

namespace Datautils

/-- A pixel: four channels (R,G,B,A) as in the `(H,W,4)` float arrays of the
source; channel `3` is alpha. -/
abbrev Pixel : Type := Fin 4 → ℚ

/-- An image for the compositing engine: coordinates `(y, x)` to a pixel,
mirroring a `(4,H,W)`-indexed float tensor. -/
abbrev CImg : Type := ℕ → ℕ → Pixel

/-- The blend modes appearing in `BLEND_DICT` of the source
(`NORMAL`, `MULTIPLY`, `LINEAR_DODGE`, `SCREEN`, and the synthetic
`padding` byte-string tag). -/
inductive PyBlendMode : Type
| normal
| multiply
| linear_dodge
| screen
| padding
deriving DecidableEq, Repr, Inhabited

/-- `BLEND_DICT` of the source: blend mode to column index. -/
def BLEND_DICT : PyBlendMode → Fin 5
| .normal => 0
| .multiply => 1
| .linear_dodge => 2
| .screen => 3
| .padding => 4

/-- One row of `np.identity(len(BLEND_DICT))[blend_modes]` (line 246 of the
source): the one-hot vector of a blend-mode index. -/
def oneHotRow (k : Fin 5) : Fin 5 → ℚ :=
  fun j => if j = k then 1 else 0

/-- Line 247 of the source:
`one_hot_bm[one_hot_bm[:, PADDING] == 1, NORMAL] = 1` — in every row whose
PADDING column equals 1, the NORMAL column is set to 1 (the PADDING column
itself is left at 1). -/
def collapsePadding (row : Fin 5 → ℚ) : Fin 5 → ℚ :=
  if row 4 = 1 then fun j => if j = 0 then 1 else row j else row

/-- `normalize_img` of the source: `2 * (img - 0.5)`, pointwise on values. -/
def normalize_img (v : ℚ) : ℚ := 2 * (v - 1/2)

/-- `denormalize_img` of the source: `((img + 1) / 2) * 255`. -/
def denormalize_img (v : ℚ) : ℚ := ((v + 1) / 2) * 255

/-- One slot of a `LinearComposite` batch entry: its image tensor and its
one-hot blend row (a row of `one_hot_bm`). -/
structure BatchLayer : Type where
  img : CImg
  blend : Fin 5 → ℚ

/-- The loop body of `LinearComposite` (lines 444–453 of the source) at one
pixel and colour channel: from the running result `ret`, compute
`src_alpha = src * alpha`, `shaded_base = (1-alpha) * ret`, the four blend
candidates, and their weighted sum over the first four one-hot columns
(`blend_modes` columns 0 to 3, excluding the padding column). -/
def compositeStep (l : BatchLayer) (ret : ℕ → ℕ → Fin 3 → ℚ) :
    ℕ → ℕ → Fin 3 → ℚ :=
  fun y x c =>
    let alpha := l.img y x 3
    let src := l.img y x c.castSucc
    let src_alpha := src * alpha
    let shaded_base := (1 - alpha) * ret y x c
    let normal := src_alpha + shaded_base
    let multiply := src_alpha * ret y x c + shaded_base
    let linear_dodge := min 1 (max 0 (src_alpha + ret y x c))
    let screen := 1 - (1 - ret y x c) * (1 - src_alpha)
    l.blend 0 * normal + l.blend 1 * multiply +
      l.blend 2 * linear_dodge + l.blend 3 * screen

/-- `LinearComposite` of the source for one batch entry: start from the
constant `background` image and fold the per-layer blend step over the
`max_layers` slots, bottom to top. -/
def LinearComposite (layers : List BatchLayer) (background : ℚ) :
    ℕ → ℕ → Fin 3 → ℚ :=
  layers.foldl (fun ret l => compositeStep l ret) (fun _ _ _ => background)

/-- A padded slot (zero image, PADDING one-hot collapsed onto NORMAL) leaves
the running result unchanged. -/
theorem compositeStep_padding (l : BatchLayer)
    (hpad : l.blend = collapsePadding (oneHotRow 4))
    (hzero : l.img = fun _ _ _ => 0)
    (ret : ℕ → ℕ → Fin 3 → ℚ) :
    compositeStep l ret = ret := by
  funext y x c
  have hb0 : l.blend 0 = 1 := by
    simp [hpad, collapsePadding, oneHotRow]
  have hb1 : l.blend 1 = 0 := by
    simp [hpad, collapsePadding, oneHotRow]
  have hb2 : l.blend 2 = 0 := by
    simp [hpad, collapsePadding, oneHotRow]
  have hb3 : l.blend 3 = 0 := by
    simp [hpad, collapsePadding, oneHotRow]
  simp [compositeStep, hzero, hb0, hb1, hb2, hb3]

/-- Folding `compositeStep` over padding-only slots is the identity on any
running result. -/
theorem foldl_compositeStep_padding (layers : List BatchLayer)
    (hpad : ∀ l ∈ layers, l.blend = collapsePadding (oneHotRow 4))
    (hzero : ∀ l ∈ layers, l.img = fun _ _ _ => 0)
    (ret : ℕ → ℕ → Fin 3 → ℚ) :
    layers.foldl (fun r l => compositeStep l r) ret = ret := by
  induction layers generalizing ret with
  | nil => rfl
  | cons l ls ih =>
      have h1 := compositeStep_padding l (hpad l (by simp)) (hzero l (by simp)) ret
      simp only [List.foldl_cons, h1]
      exact ih (fun m hm => hpad m (by simp [hm])) (fun m hm => hzero m (by simp [hm])) ret

/-- Claim C1: a batch entry whose blend rows all encode PADDING (after the
assembler collapse onto NORMAL) and whose layer images are all zero
composites to exactly the constant `background` image, at every pixel and
channel, for every background value. -/
theorem LinearComposite_padding_noop (layers : List BatchLayer) (background : ℚ)
    (hpad : ∀ l ∈ layers, l.blend = collapsePadding (oneHotRow 4))
    (hzero : ∀ l ∈ layers, l.img = fun _ _ _ => 0) :
    ∀ y x c, LinearComposite layers background y x c = background := by
  intro y x c
  unfold LinearComposite
  rw [foldl_compositeStep_padding layers hpad hzero]

/-- A concrete all-padding batch entry used as the witness for C1. -/
def paddingLayer : BatchLayer :=
  { img := fun _ _ _ => 0, blend := collapsePadding (oneHotRow 4) }

/-- Witness for C1: a two-slot all-padding batch with background `3/4`
composites to `3/4`. -/
theorem LinearComposite_padding_noop_witness :
    LinearComposite [paddingLayer, paddingLayer] (3/4) 0 0 0 = 3/4 :=
  LinearComposite_padding_noop [paddingLayer, paddingLayer] (3/4)
    (by intro l hl; simp only [List.mem_cons, List.not_mem_nil, or_false] at hl
        rcases hl with h | h <;> rw [h] <;> rfl)
    (by intro l hl; simp only [List.mem_cons, List.not_mem_nil, or_false] at hl
        rcases hl with h | h <;> rw [h] <;> rfl)
    0 0 0

/-- Normal blend candidate with a premultiplied source term `s * a`:
`src_alpha + shaded_base` where `src_alpha = s * a`, `shaded_base = (1-a) * R`. -/
def blendNormal (s a R : ℚ) : ℚ := s * a + (1 - a) * R

/-- Multiply blend candidate: `src_alpha * R + shaded_base` with
`src_alpha = s * a`. -/
def blendMultiply (s a R : ℚ) : ℚ := s * a * R + (1 - a) * R

/-- Linear-dodge blend candidate: `clamp(src_alpha + R, 0, 1)` with
`src_alpha = s * a`. -/
def blendLinearDodge (s a R : ℚ) : ℚ := min 1 (max 0 (s * a + R))

/-- Screen blend candidate: `1 - (1-R) * (1-src_alpha)` with
`src_alpha = s * a`. -/
def blendScreen (s a R : ℚ) : ℚ := 1 - (1 - R) * (1 - s * a)

/-- The reading of the normal candidate in the claim, where `src_alpha` is taken
to be the raw source channel `s` (already premultiplied at assembly time):
`normal = s + (1-a) * R`. -/
def claimNormal (s a R : ℚ) : ℚ := s + (1 - a) * R

/-- A single NORMAL layer with RGB 1 and alpha 1/2, refuting the claim that
`src_alpha = s` inside `LinearComposite`. -/
def halfAlphaLayer : BatchLayer :=
  { img := fun _ _ ch => if ch = 3 then 1/2 else 1, blend := oneHotRow 0 }

/-- Counterexample to C3 as stated: on a NORMAL layer with `s = 1`,
`a = 1/2` over background `0`, the code yields `s*a + (1-a)*R = 1/2`, not
the claimed `src_alpha + shaded_base` with `src_alpha = s`, which equals
`1`. -/
theorem LinearComposite_src_alpha_cex :
    LinearComposite [halfAlphaLayer] 0 0 0 0 = 1/2 ∧
      claimNormal (halfAlphaLayer.img 0 0 0) (halfAlphaLayer.img 0 0 3) 0 = 1 ∧
      LinearComposite [halfAlphaLayer] 0 0 0 0 ≠
        claimNormal (halfAlphaLayer.img 0 0 0) (halfAlphaLayer.img 0 0 3) 0 := by
  refine ⟨?_, ?_, ?_⟩ <;>
    simp [LinearComposite, compositeStep, halfAlphaLayer, claimNormal,
      oneHotRow]

/-- Claim C3 (amended): in each `LinearComposite` step, with `s` the raw RGB
channel, `a` the alpha channel and `R` the running result, the code takes
`src_alpha = s * a` (a further premultiplication by alpha inside the
compositor) and `shaded_base = (1-a) * R`, computes
`normal`, `multiply`, `linear_dodge`, `screen` as the four candidates, and
selects by the weighted sum of the one-hot coordinates of the layer over the four
real modes. -/
theorem compositeStep_blend_formula (l : BatchLayer)
    (ret : ℕ → ℕ → Fin 3 → ℚ) (y x : ℕ) (c : Fin 3) :
    compositeStep l ret y x c =
      l.blend 0 * blendNormal (l.img y x c.castSucc) (l.img y x 3) (ret y x c) +
      l.blend 1 * blendMultiply (l.img y x c.castSucc) (l.img y x 3) (ret y x c) +
      l.blend 2 * blendLinearDodge (l.img y x c.castSucc) (l.img y x 3) (ret y x c) +
      l.blend 3 * blendScreen (l.img y x c.castSucc) (l.img y x 3) (ret y x c) := by
  simp only [compositeStep, blendNormal, blendMultiply, blendLinearDodge, blendScreen]

/-- Claim C10: `denormalize_img (normalize_img x) = 255 * x` — the two maps
rescale between different ranges and are not mutual inverses. -/
theorem denormalize_normalize (x : ℚ) :
    denormalize_img (normalize_img x) = 255 * x := by
  unfold normalize_img denormalize_img
  ring

/-! ### Tensor Assembler: clip resolution (`pil2tensor`, lines 60–70) -/

/-- Lines 68–69 of the source at one pixel: the clip alpha is
multiplied by the parent alpha, and a pixel whose resulting alpha is
exactly zero has all four channels set to 0
(`img[:, :, 3] *= cur_layer_img[:, :, 3]; img[img[:, :, 3] == 0] = 0`). -/
def clipPixel (parentPx px : Pixel) : Pixel :=
  let a := px 3 * parentPx 3
  if a = 0 then fun _ => 0 else fun c => if c = 3 then a else px c

/-- The elementwise clip update of a whole layer image against its parent
image (same spatial grid, flattened). -/
def applyClip (parent img : List Pixel) : List Pixel :=
  List.zipWith (fun pp px => clipPixel pp px) parent img

/-- One entry of the normalized layer list reaching the clip-resolution loop
of `pil2tensor` (entries whose image was removed as invisible or fully
transparent are already gone). -/
structure TLayer : Type where
  img : List Pixel
  blend_mode : PyBlendMode
  is_clip : Bool

/-- The clip-resolution loop of `pil2tensor` (lines 60–70): walk the layer
list carrying the `cur_layer_img` pointer (`none` initially); a non-clip
layer becomes the new parent and is emitted unchanged; a clip layer is
updated by `applyClip` against the current parent.  When no parent exists
yet, Python assigns `cur_layer_img = img` first, so the clip layer is
clipped against itself and the mutated array becomes the parent. -/
def clipResolve : Option (List Pixel) → List TLayer →
    List (List Pixel × PyBlendMode)
| _, [] => []
| cur, l :: rest =>
    if l.is_clip then
      match cur with
      | none =>
          let img2 := applyClip l.img l.img
          (img2, l.blend_mode) :: clipResolve (some img2) rest
      | some c =>
          (applyClip c l.img, l.blend_mode) :: clipResolve (some c) rest
    else
      (l.img, l.blend_mode) :: clipResolve (some l.img) rest

/-- The alpha channel produced by `clipPixel` is the product of the clip
alpha and the parent alpha. -/
theorem clipPixel_alpha (pp px : Pixel) :
    clipPixel pp px 3 = px 3 * pp 3 := by
  unfold clipPixel
  split
  · simp_all
  · simp

/-- A pixel whose clipped alpha vanishes is fully zeroed. -/
theorem clipPixel_zero (pp px : Pixel) (h : clipPixel pp px 3 = 0) :
    clipPixel pp px = fun _ => 0 := by
  rw [clipPixel_alpha] at h
  unfold clipPixel
  rw [if_pos h]

/-- Claim C8: in `pil2tensor`, a clip layer with current parent `c` is
emitted as the `applyClip` update, whose every pixel has alpha equal to the
product of the layer alpha and the parent alpha; any pixel whose resulting
alpha is exactly zero — in particular any pixel over parent alpha 0 — has
all of its channels set to 0. -/
theorem pil2tensor_clip_rule (c : List Pixel) (l : TLayer)
    (rest : List TLayer) (hclip : l.is_clip = true)
    (j : ℕ) (hj : j < (applyClip c l.img).length) :
    clipResolve (some c) (l :: rest) =
      (applyClip c l.img, l.blend_mode) :: clipResolve (some c) rest ∧
    ((applyClip c l.img).get ⟨j, hj⟩) 3 =
      (l.img.getD j (fun _ => 0)) 3 * (c.getD j (fun _ => 0)) 3 ∧
    ((c.getD j (fun _ => 0)) 3 = 0 →
      (applyClip c l.img).get ⟨j, hj⟩ = fun _ => 0) ∧
    (((applyClip c l.img).get ⟨j, hj⟩) 3 = 0 →
      (applyClip c l.img).get ⟨j, hj⟩ = fun _ => 0) := by
  have hlen := hj
  rw [applyClip, List.length_zipWith] at hlen
  have hc : j < c.length := lt_of_lt_of_le hlen (min_le_left _ _)
  have hi : j < l.img.length := lt_of_lt_of_le hlen (min_le_right _ _)
  have hget : (applyClip c l.img).get ⟨j, hj⟩ =
      clipPixel (c.get ⟨j, hc⟩) (l.img.get ⟨j, hi⟩) := by
    simp [applyClip, List.getElem_zipWith]
  have hcD : c.getD j (fun _ => 0) = c.get ⟨j, hc⟩ := by
    simp [List.getD_eq_getElem?_getD, List.getElem?_eq_getElem hc]
  have hiD : l.img.getD j (fun _ => 0) = l.img.get ⟨j, hi⟩ := by
    simp [List.getD_eq_getElem?_getD, List.getElem?_eq_getElem hi]
  refine ⟨?_, ?_, ?_, ?_⟩
  · simp [clipResolve, hclip]
  · rw [hget, hcD, hiD, clipPixel_alpha]
  · intro h0
    rw [hcD] at h0
    rw [hget]
    apply clipPixel_zero
    rw [clipPixel_alpha, h0, mul_zero]
  · intro h0
    rw [hget] at h0 ⊢
    exact clipPixel_zero _ _ h0

/-- A fully transparent single-pixel parent image. -/
def zeroAlphaParent : List Pixel := [fun c => if c = 3 then 0 else 1]

/-- A concrete clip layer: one opaque white pixel. -/
def whiteClip : TLayer :=
  { img := [fun _ => 1], blend_mode := .normal, is_clip := true }

/-- Witness for C8: clipping an opaque pixel over a parent of alpha 0 zeroes
all channels. -/
theorem pil2tensor_clip_rule_witness :
    whiteClip.is_clip = true ∧
    (0 < (applyClip zeroAlphaParent whiteClip.img).length ∧
      clipResolve (some zeroAlphaParent) [whiteClip] =
        (applyClip zeroAlphaParent whiteClip.img, whiteClip.blend_mode) ::
          clipResolve (some zeroAlphaParent) [] ∧
      ((applyClip zeroAlphaParent whiteClip.img).get
          ⟨0, by simp [applyClip, zeroAlphaParent, whiteClip]⟩) 3 =
        (whiteClip.img.getD 0 (fun _ => 0)) 3 *
          (zeroAlphaParent.getD 0 (fun _ => 0)) 3 ∧
      ((zeroAlphaParent.getD 0 (fun _ => 0)) 3 = 0 →
        (applyClip zeroAlphaParent whiteClip.img).get
          ⟨0, by simp [applyClip, zeroAlphaParent, whiteClip]⟩ = fun _ => 0) ∧
      (((applyClip zeroAlphaParent whiteClip.img).get
          ⟨0, by simp [applyClip, zeroAlphaParent, whiteClip]⟩) 3 = 0 →
        (applyClip zeroAlphaParent whiteClip.img).get
          ⟨0, by simp [applyClip, zeroAlphaParent, whiteClip]⟩ = fun _ => 0)) := by
  constructor
  · rfl
  · constructor
    · simp [applyClip, zeroAlphaParent, whiteClip]
    · exact pil2tensor_clip_rule zeroAlphaParent whiteClip [] rfl 0
        (by simp [applyClip, zeroAlphaParent, whiteClip])

/-! ### Tensor Assembler: content filter (`drop_full_post_filter`) -/

/-- `np.mean` of the alpha channel of a flattened image. -/
def meanAlpha (img : List Pixel) : ℚ :=
  (img.map (fun px => px 3)).sum / img.length

/-- The `for i, (img, blend_mode) in enumerate(layer_tensors)` loop of
`drop_full_post_filter` (lines 97–100): skip entry `i` when
`(t[i] > 0.95 and i > n - 2) or t[i] < 1e-5`, keep it otherwise.  The index
comparison is over `ℤ`, as in Python. -/
def dropFullLoop (t : List ℚ) (n : ℕ) :
    ℕ → List (List Pixel × PyBlendMode) → List (List Pixel × PyBlendMode)
| _, [] => []
| i, x :: xs =>
    if (t.getD i 0 > 95/100 ∧ (i : ℤ) > (n : ℤ) - 2) ∨ t.getD i 0 < 1/100000
    then dropFullLoop t n (i + 1) xs
    else x :: dropFullLoop t n (i + 1) xs

/-- `drop_full_post_filter` of the source (lines 89–101): stack the layer
images (`np.stack` raises on an empty list, modelled by `none`), divide each
mean alpha of each layer by the mean alpha of the preview, and run the enumerate
loop. -/
def drop_full_post_filter (layer_tensors : List (List Pixel × PyBlendMode))
    (preview : List Pixel) :
    Option (List (List Pixel × PyBlendMode)) :=
  if layer_tensors = [] then none
  else
    some (dropFullLoop
      (layer_tensors.map (fun lt => meanAlpha lt.1 / meanAlpha preview))
      layer_tensors.length 0 layer_tensors)

/-- The reading of the drop rule in the claim: a layer is dropped when its alpha
quotient exceeds `0.95` *and it is one of the last two layers*
(`i ≥ n - 2`), or the quotient is below `1e-5`. -/
def dropFullClaimLoop (t : List ℚ) (n : ℕ) :
    ℕ → List (List Pixel × PyBlendMode) → List (List Pixel × PyBlendMode)
| _, [] => []
| i, x :: xs =>
    if (t.getD i 0 > 95/100 ∧ (n : ℤ) - 2 ≤ (i : ℤ)) ∨ t.getD i 0 < 1/100000
    then dropFullClaimLoop t n (i + 1) xs
    else x :: dropFullClaimLoop t n (i + 1) xs

/-- The filter of the claim, assembled like the source filter. -/
def dropFullClaim (layer_tensors : List (List Pixel × PyBlendMode))
    (preview : List Pixel) : List (List Pixel × PyBlendMode) :=
  dropFullClaimLoop
    (layer_tensors.map (fun lt => meanAlpha lt.1 / meanAlpha preview))
    layer_tensors.length 0 layer_tensors

/-- The amended drop rule: the near-full-coverage drop applies only to the
*last* layer (`i = n - 1`), not to the last two. -/
def dropFullAmendedLoop (t : List ℚ) (n : ℕ) :
    ℕ → List (List Pixel × PyBlendMode) → List (List Pixel × PyBlendMode)
| _, [] => []
| i, x :: xs =>
    if (t.getD i 0 > 95/100 ∧ i = n - 1) ∨ t.getD i 0 < 1/100000
    then dropFullAmendedLoop t n (i + 1) xs
    else x :: dropFullAmendedLoop t n (i + 1) xs

/-- The amended filter, assembled like the source filter. -/
def dropFullAmended (layer_tensors : List (List Pixel × PyBlendMode))
    (preview : List Pixel) : List (List Pixel × PyBlendMode) :=
  dropFullAmendedLoop
    (layer_tensors.map (fun lt => meanAlpha lt.1 / meanAlpha preview))
    layer_tensors.length 0 layer_tensors

/-- An opaque pixel. -/
def fullPix : Pixel := fun _ => 1

/-- Three identical fully opaque layers. -/
def threeFullLayers : List (List Pixel × PyBlendMode) :=
  [([fullPix], .normal), ([fullPix], .normal), ([fullPix], .normal)]

/-- Counterexample to C5 as stated: with three layers of alpha quotient `1`,
the code keeps the first two and drops only the last (`i > n - 2` means
`i = n - 1`), while the claimed last-two rule would also drop the middle
layer. -/
theorem drop_full_post_filter_last_two_cex :
    (drop_full_post_filter threeFullLayers [fullPix]).map List.length =
        some 2 ∧
      (dropFullClaim threeFullLayers [fullPix]).length = 1 := by
  constructor
  · norm_num [drop_full_post_filter, dropFullClaim, dropFullLoop,
      dropFullClaimLoop, threeFullLayers, meanAlpha, fullPix]
    exact ⟨_, ⟨by simp, rfl⟩, by simp⟩
  · norm_num [drop_full_post_filter, dropFullClaim, dropFullLoop,
      dropFullClaimLoop, threeFullLayers, meanAlpha, fullPix]

/-- On the index range the enumerate loop actually visits, the source
condition `i > n - 2` coincides with `i = n - 1`, so the two loops agree. -/
theorem dropFullLoop_eq_amendedLoop (t : List ℚ) (n : ℕ)
    (xs : List (List Pixel × PyBlendMode)) (i : ℕ)
    (hin : i + xs.length = n) :
    dropFullLoop t n i xs = dropFullAmendedLoop t n i xs := by
  induction xs generalizing i with
  | nil => rfl
  | cons x xs ih =>
      have hlen : i + (xs.length + 1) = n := by
        simpa using hin
      have hcond : ((i : ℤ) > (n : ℤ) - 2) ↔ i = n - 1 := by omega
      have hrec : dropFullLoop t n (i + 1) xs =
          dropFullAmendedLoop t n (i + 1) xs := ih (i + 1) (by omega)
      simp only [dropFullLoop, dropFullAmendedLoop, hcond, hrec]

/-- Claim C5 (amended): on a nonempty layer list, `drop_full_post_filter`
removes a layer iff its mean-alpha quotient against the preview exceeds
`0.95` and it is the **last** layer, or the quotient is below `1e-5`; all
other layers are kept in order.  (On an empty list the internal `np.stack`
raises.) -/
theorem drop_full_post_filter_spec
    (layer_tensors : List (List Pixel × PyBlendMode))
    (preview : List Pixel) (hne : layer_tensors ≠ []) :
    drop_full_post_filter layer_tensors preview =
      some (dropFullAmended layer_tensors preview) := by
  unfold drop_full_post_filter dropFullAmended
  rw [if_neg hne]
  congr 1
  exact dropFullLoop_eq_amendedLoop _ _ layer_tensors 0 (by simp)

/-- Witness for the amended C5 on the three-opaque-layer input. -/
theorem drop_full_post_filter_spec_witness :
    threeFullLayers ≠ [] ∧
      drop_full_post_filter threeFullLayers [fullPix] =
        some (dropFullAmended threeFullLayers [fullPix]) := by
  constructor
  · intro h
    exact List.noConfusion h
  · exact drop_full_post_filter_spec threeFullLayers [fullPix]
      (by intro h; exact List.noConfusion h)

/-! ### Tensor Assembler: fixed-size packing (`load_pkl_data`, lines 229–248) -/

/-- The `while len(tensors) > self.max_layers` loop of `load_pkl_data`
(lines 233–236): repeatedly delete the entry at a random index until the
count reaches `max_layers`.  The stream of `random.randint(0, len-1)` draws
is abstracted by the oracle `pick`; taking the draw modulo the current
length keeps it in range, exactly as the bounds of `randint` do. -/
def randomDrop {α : Type} (maxL : ℕ) (pick : ℕ → ℕ) (l : List α) : List α :=
  if maxL < l.length then
    randomDrop maxL (fun k => pick (k + 1)) (l.eraseIdx (pick 0 % l.length))
  else l
termination_by l.length
decreasing_by
  rw [List.length_eraseIdx]
  have hidx : pick 0 % l.length < l.length := Nat.mod_lt _ (by omega)
  simp only [hidx, if_pos]
  omega

/-- The random-drop loop only ever removes entries: its result is a sublist
of its input (entries keep their original relative order). -/
theorem randomDrop_sublist {α : Type} (maxL : ℕ) (pick : ℕ → ℕ)
    (l : List α) : (randomDrop maxL pick l).Sublist l := by
  rw [randomDrop]
  split
  next h =>
    exact (randomDrop_sublist maxL (fun k => pick (k + 1))
        (l.eraseIdx (pick 0 % l.length))).trans
      (List.eraseIdx_sublist l (pick 0 % l.length))
  next h => exact List.Sublist.refl l
termination_by l.length
decreasing_by
  rw [List.length_eraseIdx]
  have hidx : pick 0 % l.length < l.length := Nat.mod_lt _ (by omega)
  simp only [hidx, if_pos]
  omega

/-- The random-drop loop stops exactly at `max_layers` when it had to drop,
and does nothing otherwise. -/
theorem randomDrop_length {α : Type} (maxL : ℕ) (pick : ℕ → ℕ)
    (l : List α) : (randomDrop maxL pick l).length = min l.length maxL := by
  rw [randomDrop]
  split
  next h =>
    have hidx : pick 0 % l.length < l.length := Nat.mod_lt _ (by omega)
    rw [randomDrop_length maxL (fun k => pick (k + 1))
      (l.eraseIdx (pick 0 % l.length))]
    rw [List.length_eraseIdx]
    simp only [hidx, if_pos]
    omega
  next h => omega
termination_by l.length
decreasing_by
  rw [List.length_eraseIdx]
  have hidx : pick 0 % l.length < l.length := Nat.mod_lt _ (by omega)
  simp only [hidx, if_pos]
  omega

/-- The stack-size reconciliation of `load_pkl_data` (lines 229–248): run
the random-drop loop, `np.stack` the survivors (raises — `none` — on an
empty list), prepend `max_layers - len` zero images and PADDING tags when
under capacity, one-hot the blend indices and collapse PADDING rows onto
NORMAL.  Returns the image stack and the one-hot blend matrix. -/
def load_pkl_assemble (maxL : ℕ) (pick : ℕ → ℕ)
    (layers : List (List Pixel × PyBlendMode)) :
    Option (List (List Pixel) × List (Fin 5 → ℚ)) :=
  match randomDrop maxL pick layers with
  | [] => none
  | first :: rest =>
      some
        (List.replicate (maxL - (first :: rest).length)
            (List.replicate first.1.length ((fun _ => 0) : Pixel)) ++
          (first :: rest).map Prod.fst,
         (List.replicate (maxL - (first :: rest).length)
            (BLEND_DICT .padding) ++
          (first :: rest).map (fun lt => BLEND_DICT lt.2)).map
            (fun k => collapsePadding (oneHotRow k)))

/-- Counterexample to C2 as stated: with zero retained layers the
reconciliation does **not** yield a batch — `np.stack([])` raises
(`none`). -/
theorem load_pkl_assemble_empty_cex :
    load_pkl_assemble 64 (fun _ => 0) [] = none := by
  simp [load_pkl_assemble, randomDrop]

/-- Claim C2 (amended): the stack-size reconciliation never errors for any
retained layer count of at least one (and `max_layers ≥ 1`); with zero
retained layers the `np.stack` call raises. -/
theorem load_pkl_assemble_total (maxL : ℕ) (pick : ℕ → ℕ)
    (layers : List (List Pixel × PyBlendMode))
    (hne : layers ≠ []) (hmax : 1 ≤ maxL) :
    (load_pkl_assemble maxL pick layers).isSome = true := by
  have hpos : 0 < (randomDrop maxL pick layers).length := by
    rw [randomDrop_length]
    have : 0 < layers.length := List.length_pos.mpr hne
    omega
  rcases hK : randomDrop maxL pick layers with _ | ⟨first, rest⟩
  · rw [hK] at hpos
    simp at hpos
  · rw [load_pkl_assemble, hK]
    rfl

/-- Witness for the amended C2: a one-layer sample assembles successfully
under capacity 64. -/
theorem load_pkl_assemble_total_witness :
    ([([fullPix], PyBlendMode.normal)] ≠ []) ∧ 1 ≤ 64 ∧
      (load_pkl_assemble 64 (fun _ => 0)
        [([fullPix], PyBlendMode.normal)]).isSome = true :=
  ⟨by simp, by norm_num,
    load_pkl_assemble_total 64 (fun _ => 0) [([fullPix], PyBlendMode.normal)]
      (by simp) (by norm_num)⟩

/-- Claim C6: for a nonempty post-filter layer list and `max_layers ≥ 1`,
the assembler returns a batch of exactly `max_layers` entries; when
`n ≥ max_layers` the surviving images are a sublist (subset in original
relative order) of the original images, with exactly `n - max_layers`
removals; when `n < max_layers` the batch is the original images with
`max_layers - n` zero-filled PADDING-tagged slots **prepended**. -/
theorem load_pkl_assemble_fixed_size (maxL : ℕ) (pick : ℕ → ℕ)
    (layers : List (List Pixel × PyBlendMode))
    (hne : layers ≠ []) (hmax : 1 ≤ maxL) :
    ∃ t b, load_pkl_assemble maxL pick layers = some (t, b) ∧
      t.length = maxL ∧ b.length = maxL ∧
      (maxL ≤ layers.length → t.Sublist (layers.map Prod.fst)) ∧
      (layers.length < maxL →
        t = List.replicate (maxL - layers.length)
              (List.replicate ((layers.head hne).1.length)
                ((fun _ => 0) : Pixel)) ++
            layers.map Prod.fst ∧
        b = List.replicate (maxL - layers.length)
              (collapsePadding (oneHotRow (BLEND_DICT .padding))) ++
            layers.map
              (fun lt => collapsePadding (oneHotRow (BLEND_DICT lt.2)))) := by
  have hlenK := randomDrop_length maxL pick layers
  have hsubK := randomDrop_sublist maxL pick layers
  have hpos : 0 < (randomDrop maxL pick layers).length := by
    rw [hlenK]
    have : 0 < layers.length := List.length_pos.mpr hne
    omega
  rcases hK : randomDrop maxL pick layers with _ | ⟨first, rest⟩
  · rw [hK] at hpos
    simp at hpos
  · rw [hK] at hlenK hsubK
    have hKle : (first :: rest).length ≤ maxL := by
      rw [hlenK]
      omega
    refine ⟨_, _, by rw [load_pkl_assemble, hK], ?_, ?_, ?_, ?_⟩
    · simp only [List.length_append, List.length_replicate, List.length_map]
      omega
    · simp only [List.length_map, List.length_append, List.length_replicate]
      omega
    · intro hover
      have hKlen : (first :: rest).length = maxL := by
        rw [hlenK]
        omega
      rw [hKlen]
      simp only [Nat.sub_self, List.replicate_zero, List.nil_append]
      exact hsubK.map Prod.fst
    · intro hunder
      have hKeq : first :: rest = layers :=
        hsubK.eq_of_length (by rw [hlenK]; omega)
      subst hKeq
      constructor
      · rfl
      · rw [List.map_append, List.map_replicate, List.map_map]
        rfl

/-- Witness for C6: one real layer packed to capacity 2 — one zero PADDING
slot is prepended. -/
theorem load_pkl_assemble_fixed_size_witness :
    ([([fullPix], PyBlendMode.normal)] ≠ []) ∧ 1 ≤ 2 ∧
      (∃ t b, load_pkl_assemble 2 (fun _ => 0)
          [([fullPix], PyBlendMode.normal)] = some (t, b) ∧
        t.length = 2 ∧ b.length = 2 ∧
        (2 ≤ ([([fullPix], PyBlendMode.normal)] :
            List (List Pixel × PyBlendMode)).length →
          t.Sublist ([([fullPix], PyBlendMode.normal)].map Prod.fst)) ∧
        (([([fullPix], PyBlendMode.normal)] :
            List (List Pixel × PyBlendMode)).length < 2 →
          t = List.replicate 1
                (List.replicate (([fullPix] : List Pixel)).length
                  ((fun _ => 0) : Pixel)) ++
              [([fullPix], PyBlendMode.normal)].map Prod.fst ∧
          b = List.replicate 1
                (collapsePadding (oneHotRow (BLEND_DICT .padding))) ++
              [([fullPix], PyBlendMode.normal)].map
                (fun lt => collapsePadding (oneHotRow (BLEND_DICT lt.2))))) := by
  refine ⟨by simp, by norm_num, ?_⟩
  have h := load_pkl_assemble_fixed_size 2 (fun _ => 0)
    [([fullPix], PyBlendMode.normal)] (by simp) (by norm_num)
  simpa using h

/-! ### Snapshot Aligner (`dataset_psd2pkl_worker`) -/

/-- 3×3 homography matrices over the rationals. -/
abbrev Mat3 : Type := Matrix (Fin 3) (Fin 3) ℚ

/-- `MIN_MATCH_COUNT` of the source (line 358). -/
def MIN_MATCH_COUNT : ℕ := 10

/-- Lines 396–403 of the source: the incremental homography is the RANSAC
fit when `len(good) > MIN_MATCH_COUNT`, and the identity otherwise.  The
numerical RANSAC estimator (`cv2.findHomography` with threshold 5.0) is
abstracted as the parameter `ransacFit`. -/
def alignPerspective (nGood : ℕ) (ransacFit : Mat3) : Mat3 :=
  if nGood > MIN_MATCH_COUNT then ransacFit else 1

/-- A non-identity homography standing for a RANSAC output. -/
def scaleFit : Mat3 := !![2, 0, 0; 0, 2, 0; 0, 0, 1]

/-- Counterexample to C4 as stated: with exactly 10 accepted correspondences
the code takes the identity fallback (the guard is the strict
`len(good) > 10`), even though a non-identity RANSAC fit is available —
the claim says 10 or more correspondences use the RANSAC fit. -/
theorem alignPerspective_at_ten_cex :
    alignPerspective 10 scaleFit = 1 ∧ scaleFit ≠ 1 := by
  constructor
  · rfl
  · intro hEq
    have h00 := congrFun (congrFun hEq 0) 0
    rw [show scaleFit 0 0 = 2 from rfl, Matrix.one_apply_eq] at h00
    norm_num at h00

/-- Claim C4 (amended): whenever the RANSAC fit is not itself the identity,
the incremental homography equals the identity iff at most
`MIN_MATCH_COUNT = 10` ratio-test-accepted correspondences remain; with
strictly more than 10, the RANSAC fit (5.0-pixel threshold) is used. -/
theorem alignPerspective_identity_iff (nGood : ℕ) (fit : Mat3)
    (hfit : fit ≠ 1) :
    alignPerspective nGood fit = 1 ↔ nGood ≤ MIN_MATCH_COUNT := by
  unfold alignPerspective
  split
  · exact iff_of_false hfit (by omega)
  · exact iff_of_true rfl (by omega)

/-- Witness for the amended C4 at 5 correspondences. -/
theorem alignPerspective_identity_iff_witness :
    scaleFit ≠ (1 : Mat3) ∧
      (alignPerspective 5 scaleFit = 1 ↔ 5 ≤ MIN_MATCH_COUNT) :=
  ⟨alignPerspective_at_ten_cex.2.imp id,
    alignPerspective_identity_iff 5 scaleFit alignPerspective_at_ten_cex.2⟩

/-- Squared Frobenius norm of a 3×3 matrix.  The source compares
`np.linalg.norm(M - eye) < ltol` with `ltol = 5e-3`; since both sides are
nonnegative this is equivalent to comparing the squared norm against
`ltol² = 1/40000`, which keeps the embedding inside `ℚ`. -/
def frobSq (M : Mat3) : ℚ := ∑ i, ∑ j, (M i j) ^ 2

/-- `ltol² = (5e-3)² = 1/40000` (line 359 of the source). -/
def ltolSq : ℚ := 1 / 40000

/-- Lines 406–418 of the source: after `M ← M · perspective`, snap `M` to
the exact identity when `‖M - I‖ < ltol`; otherwise reset to the identity
when the projected-corner bounding-rectangle IoU test fails.  The geometric
IoU test (`cv2.perspectiveTransform` / `cv2.boundingRect` / `iou < 0.5`,
lines 409–417) is abstracted as the Boolean `iouReject`; the claims under
verification do not depend on its value. -/
def snapAlign (M : Mat3) (iouReject : Bool) : Mat3 :=
  if frobSq (M - 1) < ltolSq then 1 else if iouReject then 1 else M

/-- Claim C7: any accumulated transform within Frobenius distance `5e-3` of
the identity is persisted as exactly the identity matrix. -/
theorem snapAlign_identity (M : Mat3) (iouReject : Bool)
    (h : frobSq (M - 1) < ltolSq) :
    snapAlign M iouReject = 1 := by
  unfold snapAlign
  rw [if_pos h]

/-- A slightly perturbed identity matrix (drift `1/1000` in one entry). -/
def driftM : Mat3 := !![1 + 1/1000, 0, 0; 0, 1, 0; 0, 0, 1]

/-- Witness for C7: the drifted matrix is within tolerance and snaps to the
exact identity. -/
theorem snapAlign_identity_witness :
    frobSq (driftM - 1) < ltolSq ∧ snapAlign driftM true = 1 := by
  have h : frobSq (driftM - 1) < ltolSq := by
    simp [frobSq, ltolSq, driftM, Fin.sum_univ_three, Matrix.sub_apply,
      Matrix.one_apply, Matrix.vecHead, Matrix.vecTail]
    norm_num
  exact ⟨h, snapAlign_identity driftM true h⟩

/-! ### Augmentation Transform (`PSDBasicAugmentation`) -/

/-- Python `int()` on a rational: truncation toward zero. -/
def pyInt (q : ℚ) : ℤ := if 0 ≤ q then ⌊q⌋ else -⌊-q⌋

/-- The parameter state of `PSDBasicAugmentation` after `set_params`:
target size `(w, h)`, rotation angle, crop origin, height/width jitter,
flip flags, and zoom factor. -/
structure AugParams : Type where
  target_size : ℕ × ℕ
  angle : ℚ
  top : ℚ
  left : ℚ
  height : ℚ
  width : ℚ
  hflip : Bool
  vflip : Bool
  scale : ℚ

/-- One geometric operation performed by `PSDBasicAugmentation.apply`,
recorded with the exact arguments handed to the torchvision primitives. -/
inductive AugOp : Type
| resize (h w : ℤ)
| rotate (angle : ℚ)
| crop (top left : ℚ) (h w : ℕ)
| hflip
| vflip
deriving DecidableEq, Repr

/-- `PSDBasicAugmentation.apply` of the source (lines 167–177) as the trace
of operations on an input of size `(w, h)`:
`scale = (self.scale / 2 + 0.8) * min(self.target_size) / min(w, h)`;
resize to `(int(h * self.height * scale), int(w * self.width * scale))`;
rotate by `self.angle`; crop at `(self.top, self.left)` to
`(self.target_size[1], self.target_size[0])`; then the conditional flips. -/
def PSDBasicAugmentation.apply (p : AugParams) (w h : ℕ) : List AugOp :=
  let scale : ℚ :=
    (p.scale / 2 + 8/10) * (min p.target_size.1 p.target_size.2 : ℚ) / (min w h : ℚ)
  [AugOp.resize (pyInt ((h : ℚ) * p.height * scale)) (pyInt ((w : ℚ) * p.width * scale)),
   AugOp.rotate p.angle,
   AugOp.crop p.top p.left p.target_size.2 p.target_size.1]
  ++ (if p.hflip then [AugOp.hflip] else [])
  ++ (if p.vflip then [AugOp.vflip] else [])

/-- The description of `apply` in the claim: compute the base scale factor
`(scale/2 + 0.8) * min(target_size) / min(w, h)`, resize with the height
dimension further multiplied by the height jitter and the width dimension by
the width jitter, rotate by the stored angle, crop to exactly the target
dimensions, then flip horizontally iff `hflip` and vertically iff `vflip`. -/
def specApply (p : AugParams) (w h : ℕ) : List AugOp :=
  let base : ℚ :=
    (p.scale / 2 + 8/10) * (min p.target_size.1 p.target_size.2 : ℚ) / (min w h : ℚ)
  [AugOp.resize (pyInt ((h : ℚ) * base * p.height)) (pyInt ((w : ℚ) * base * p.width)),
   AugOp.rotate p.angle,
   AugOp.crop p.top p.left p.target_size.2 p.target_size.1]
  ++ (if p.hflip then [AugOp.hflip] else [])
  ++ (if p.vflip then [AugOp.vflip] else [])

/-- Claim C9: `PSDBasicAugmentation.apply` performs exactly the sequence the
spec describes — scaled resize (with per-axis jitter), rotation, crop to
the target dimensions, then the conditional horizontal and vertical
flips. -/
theorem PSDBasicAugmentation_apply_spec (p : AugParams) (w h : ℕ) :
    PSDBasicAugmentation.apply p w h = specApply p w h := by
  simp only [PSDBasicAugmentation.apply, specApply]
  rw [mul_right_comm ((h : ℚ)) p.height, mul_right_comm ((w : ℚ)) p.width]

end Datautils
